import Mathlib

/-!
Shallow embedding of the keyframe segmentation engine of the GIF animation
helper (source file `v0.62.36_strippedBuild_GIF_v039.py`).

The embedding covers the data model (keyframe records, the keyframe mapping),
the segment-context query `_get_keyframe_context_for_frame` together with its
helper `_is_sub_motion`, the playback advance step `_advance_frame` with
`_update_playback_context` and `_find_next_unlocked_frame`, the frame
selection guard of `select_frame`, and the project-file persistence pair
`save_settings` / `load_settings`.

Conventions:
* frame indices and keyframe keys are `Int` (Python ints);
* the frame count `F` is a `Nat` (`len(self.all_frame_data)`);
* Python dicts with a known field set become structures of `Option` fields
  (`.get(key)` is the field, `.get(key, d)` is `field.getD d`);
* the keyframe mapping is an association list `List (Int × KfData)`
  (Python dict: unique keys, insertion order preserved);
* Python strings are `List Char`;
* the record field `stop` renders the Python dict key "end" (a Lean keyword)
  and `mtype` renders the dict key "type" of a segment context.
-/

/-- Motion type tag of a segment context; renders the Python strings
"none", "simple", "complete" and "simple_end". -/
inductive MType where
  | mnone
  | simple
  | complete
  | simple_end
deriving DecidableEq, Repr

/-- A keyframe record: the Python value dict with optional fields
`name`, `type` (1 = Start, 2 = Middle, 9 = End), `loop`, `locked`. -/
structure KfData where
  name : Option (List Char) := none
  type : Option Int := none
  loop : Option Int := none
  locked : Option Bool := none
deriving DecidableEq, Repr

/-- The keyframe mapping `self.keyframes`. -/
abbrev Keyframes := List (Int × KfData)

/-- `self.keyframes[k]` / `self.keyframes.get(k)` with an empty-dict default. -/
def kfGet (kf : Keyframes) (k : Int) : KfData := (kf.lookup k).getD {}

/-- Python `sorted` on a list of keys. -/
def sortKeys (l : List Int) : List Int := List.insertionSort (fun a b => a ≤ b) l

/-- `bisect.bisect_right(l, x)` for an ascending `l`: the number of entries ≤ x. -/
def bisect_right (l : List Int) (x : Int) : Nat := l.countP (fun k => decide (k ≤ x))

/-- `bisect.bisect_left(l, x)` for an ascending `l`: the number of entries < x. -/
def bisect_left (l : List Int) (x : Int) : Nat := l.countP (fun k => decide (k < x))

/-- `_is_sub_motion(key_index, sorted_keys)` (source lines 1236-1255):
a type-Middle key is a sub-motion continuation when the nearest preceding
keyframe has type Start or Middle and no type-End keyframe lies strictly
between them. -/
def is_sub_motion (kf : Keyframes) (sorted_keys : List Int) (key_index : Int) : Bool :=
  match kf.lookup key_index with
  | none => false
  | some key_data =>
    if !(decide (key_data.type = some 2)) then false
    else
      let pos := bisect_left sorted_keys key_index
      if pos = 0 then false
      else
        let prev_key_index := sorted_keys.getD (pos - 1) 0
        let prev_key_data := kfGet kf prev_key_index
        if decide (prev_key_data.type = some 1) || decide (prev_key_data.type = some 2) then
          !(sorted_keys.any fun k =>
            decide (prev_key_index < k) && decide (k < key_index) &&
              decide ((kfGet kf k).type = some 9))
        else false

/-- The "true start" classification used at source lines 1196 and 1213:
type Start, or locked with type ≠ End, or a type-Middle key that is not a
sub-motion continuation. -/
def is_true_start (kf : Keyframes) (sorted_keys : List Int) (k : Int) (v : KfData) : Bool :=
  (decide (v.type = some 1) || (v.locked.getD false && decide (v.type ≠ some 9)))
    || (decide (v.type = some 2) && !(is_sub_motion kf sorted_keys k))

/-- A sub-motion entry of a segment context (`stop` renders the dict key "end"). -/
structure SubMotion where
  start : Int
  stop : Int
  data : KfData
deriving DecidableEq, Repr

/-- A segment context as returned by `_get_keyframe_context_for_frame`. -/
structure SegCtx where
  start : Option Int := none
  stop : Option Int := none
  data : KfData := {}
  mtype : MType := MType.mnone
  sub_motions : List SubMotion := []
deriving DecidableEq, Repr

/-- The default ("none") context of source line 1176. -/
def default_context : SegCtx := {}

/-- The forward scan for the segment terminator (source lines 1207-1221):
starting after `start_key`, the first later true-start key puts the end just
before it (type stays "simple"); otherwise the first type-End key becomes the
end (type "complete"); otherwise the end is `frameCount - 1`. -/
def scan_end (kf : Keyframes) (F : Nat) (sorted_keys : List Int) (start_key : Int) :
    List Int → Int × MType
  | [] => ((F : Int) - 1, MType.simple)
  | key :: rest =>
    if decide (start_key < key) then
      let key_data := kfGet kf key
      if is_true_start kf sorted_keys key key_data then (key - 1, MType.simple)
      else if decide (key_data.type = some 9) then (key, MType.complete)
      else scan_end kf F sorted_keys start_key rest
    else scan_end kf F sorted_keys start_key rest

/-- The sub-motion list construction (source lines 1224-1230): each key owns
the range up to the key before the next one, the last key owns up to
`end_key`. -/
def build_sub_motions (kf : Keyframes) (end_key : Int) : List Int → List SubMotion
  | [] => []
  | [k] => [⟨k, end_key, kfGet kf k⟩]
  | k :: k2 :: rest => ⟨k, k2 - 1, kfGet kf k⟩ :: build_sub_motions kf end_key (k2 :: rest)

/-- The "simple_end" special case (source lines 1182-1194): when the keyframe
with the smallest index has type End, no Start/Middle keyframe precedes it,
and no locked non-End keyframe precedes it, a query at or before that index
yields a `simple_end` segment spanning `[0, first_key]`. -/
def simple_end_check (kf : Keyframes) (sorted_keys : List Int) (frame_index : Int) :
    Option SegCtx :=
  match sorted_keys.head? with
  | none => none
  | some first_key =>
    let first_key_data := kfGet kf first_key
    if decide (first_key_data.type = some 9) then
      let is_simple_end := !(sorted_keys.any fun k =>
        decide (k < first_key) &&
          (decide ((kfGet kf k).type = some 1) || decide ((kfGet kf k).type = some 2)))
      let is_locked_start_before := sorted_keys.any fun k =>
        decide (k < first_key) && (kfGet kf k).locked.getD false &&
          decide ((kfGet kf k).type ≠ some 9)
      if is_simple_end && !is_locked_start_before && decide (frame_index ≤ first_key) then
        some { start := some 0, stop := some first_key, data := first_key_data,
               mtype := MType.simple_end,
               sub_motions := [⟨0, first_key, first_key_data⟩] }
      else none
    else none

/-- The sorted "true start" key list of source line 1196. -/
def true_start_keys (kf : Keyframes) (sorted_keys : List Int) : List Int :=
  sortKeys ((kf.filter fun p => is_true_start kf sorted_keys p.1 p.2).map Prod.fst)

/-- The main (non-simple_end) segment computation (source lines 1196-1234). -/
def main_segment (kf : Keyframes) (F : Nat) (sorted_keys : List Int) (frame_index : Int) :
    SegCtx :=
  if (true_start_keys kf sorted_keys).isEmpty then default_context
  else
    let insert_point := bisect_right (true_start_keys kf sorted_keys) frame_index
    if insert_point = 0 then default_context
    else
      let start_key := (true_start_keys kf sorted_keys).getD (insert_point - 1) 0
      let em := scan_end kf F sorted_keys start_key sorted_keys
      if decide (start_key ≤ frame_index) && decide (frame_index ≤ em.1) then
        let sub_motion_keys := sorted_keys.filter fun k =>
          decide (start_key ≤ k) && decide (k ≤ em.1) &&
            decide ((kfGet kf k).type ≠ some 9)
        { start := some start_key, stop := some em.1, data := kfGet kf start_key,
          mtype := em.2,
          sub_motions := build_sub_motions kf em.1 sub_motion_keys }
      else default_context

/-- `_get_keyframe_context_for_frame(frame_index)` (source lines 1175-1234),
with `F` the frame count `len(self.all_frame_data)`. -/
def get_keyframe_context_for_frame (kf : Keyframes) (F : Nat) (frame_index : Int) : SegCtx :=
  if kf.isEmpty || F == 0 then default_context
  else
    let sorted_keys := sortKeys (kf.map Prod.fst)
    match simple_end_check kf sorted_keys frame_index with
    | some ctx => ctx
    | none => main_segment kf F sorted_keys frame_index

/-- The lock test used by `select_frame` (line 882) and
`_find_next_unlocked_frame` (line 1167): the context is not "none" and its
data's `locked` flag is truthy. -/
def frame_is_locked (kf : Keyframes) (F : Nat) (i : Int) : Bool :=
  let context := get_keyframe_context_for_frame kf F i
  decide (context.mtype ≠ MType.mnone) && context.data.locked.getD false

/-- The scan loop of `_find_next_unlocked_frame` (source lines 1160-1171):
the fuel argument is the remaining iteration budget
(`while checked_count < len(self.all_frame_data)`). -/
def find_next_unlocked_aux (kf : Keyframes) (F : Nat) : Int → Nat → Int
  | _, 0 => -1
  | idx, fuel + 1 =>
    let idx := if decide ((F : Int) ≤ idx) then 0 else idx
    let context := get_keyframe_context_for_frame kf F idx
    if decide (context.mtype = MType.mnone) || !(context.data.locked.getD false) then idx
    else find_next_unlocked_aux kf F (idx + 1) fuel

/-- `_find_next_unlocked_frame(start_index)` (source lines 1157-1173). -/
def find_next_unlocked_frame (kf : Keyframes) (F : Nat) (start_index : Int) : Int :=
  if F = 0 then -1 else find_next_unlocked_aux kf F start_index F

/-- The effect of `select_frame(index, from_playback)` (source lines 878-898)
on the selected frame: out-of-range or locked (outside playback) selections
leave the selected frame unchanged, otherwise the frame becomes selected. -/
def select_frame (kf : Keyframes) (F : Nat) (selected_index : Option Int) (index : Int)
    (from_playback : Bool) : Option Int :=
  if !(decide (0 ≤ index) && decide (index < (F : Int))) then selected_index
  else if frame_is_locked kf F index && !from_playback then selected_index
  else some index

/-- A Start keyframe record as stored by the keyframe dialog. -/
def startKf : KfData :=
  { name := some ['S', 't', 'a', 'r', 't'], type := some 1, loop := some 0,
    locked := some false }

def middleKf : KfData :=
  { name := some ['M', 'i', 'd'], type := some 2, loop := some 2, locked := some false }

def endKf : KfData :=
  { name := none, type := some 9, loop := some 0, locked := some false }

/-- The example map of the spec: Start at 0, Middle(loop=2) at 3, End at 9. -/
def kfExample : Keyframes := [(0, startKf), (3, middleKf), (9, endKf)]

/-! ## Playback cursor state machine -/

/-- A Python dict lookup with default (`m.get(k, d)`). -/
def dict_get {α : Type} (m : List (Int × α)) (k : Int) (d : α) : α := (m.lookup k).getD d

/-- A Python dict assignment `m[k] = v`: overwrite in place, else append. -/
def dict_set {α : Type} (m : List (Int × α)) (k : Int) (v : α) : List (Int × α) :=
  if m.any (fun p => decide (p.1 = k)) then
    m.map (fun p => if decide (p.1 = k) then (k, v) else p)
  else m ++ [(k, v)]

/-- The playback-relevant instance state: the cursor
`current_playback_frame_index`, the per-sub-motion repeat counters
`sub_loop_counters`, and the segment-loop fields set by
`_update_playback_context`. -/
structure PlayState where
  cur : Int
  sub_loop_counters : List (Int × Int)
  is_in_complete_motion_loop : Bool
  loop_return_point : Int
  loop_end_point : Int
deriving DecidableEq, Repr

/-- `_reset_loop_state` (source lines 1059-1063). -/
def reset_loop_state (st : PlayState) : PlayState :=
  { st with is_in_complete_motion_loop := false, loop_return_point := -1,
            loop_end_point := -1, sub_loop_counters := [] }

/-- `_update_playback_context(frame_index)` (source lines 1065-1076);
`loop_btn` is `self.loop_btn.isChecked()`. When the loop button is down and
the context is loopable, the context's start/end are stored (they are present
for every loopable context; `-1` stands for the impossible missing case). -/
def update_playback_context (kf : Keyframes) (F : Nat) (loop_btn : Bool)
    (st : PlayState) (frame_index : Int) : PlayState :=
  let st1 := reset_loop_state st
  let context := get_keyframe_context_for_frame kf F frame_index
  let is_loopable_motion := decide (context.mtype = MType.complete) ||
    decide (context.mtype = MType.simple) || decide (context.mtype = MType.simple_end)
  let st2 :=
    if loop_btn && is_loopable_motion then
      { st1 with is_in_complete_motion_loop := true,
                 loop_return_point := context.start.getD (-1),
                 loop_end_point := context.stop.getD (-1) }
    else st1
  { st2 with sub_loop_counters := [] }

/-- `_advance_frame` (source lines 1104-1155): one playback tick. Returns
`none` when playback stops (no frames, every frame locked, or the resume
bounds check fails); otherwise the state after the tick, whose `cur` is the
newly displayed frame. -/
def advance_frame (kf : Keyframes) (F : Nat) (loop_btn : Bool) (st : PlayState) :
    Option PlayState :=
  if F = 0 then none
  else
    let current_frame := st.cur
    let context := get_keyframe_context_for_frame kf F current_frame
    -- lines 1113-1135: pick the tentative next frame
    let step1 : Int × PlayState :=
      if decide (context.mtype = MType.mnone) then (current_frame + 1, st)
      else
        let looped :=
          match context.sub_motions.find? (fun sm => decide (current_frame = sm.stop)) with
          | some sub_motion =>
            let target_loop := sub_motion.data.loop.getD 0
            let current_loop_count := dict_get st.sub_loop_counters sub_motion.start 0
            if decide (current_loop_count < target_loop) then
              some (sub_motion.start,
                { st with sub_loop_counters :=
                    dict_set st.sub_loop_counters sub_motion.start (current_loop_count + 1) })
            else none
          | none => none
        match looped with
        | some r => r
        | none =>
          if st.is_in_complete_motion_loop && decide (current_frame = st.loop_end_point) then
            (st.loop_return_point, { st with sub_loop_counters := [] })
          else (current_frame + 1, st)
    -- lines 1137-1143: wrap past the last frame
    let wrapped : Int × PlayState :=
      if decide ((F : Int) ≤ step1.1) then
        if step1.2.is_in_complete_motion_loop then
          (step1.2.loop_return_point, { step1.2 with sub_loop_counters := [] })
        else (0, update_playback_context kf F loop_btn step1.2 0)
      else step1
    -- lines 1145-1155: skip locked frames, detect a segment transition, resume
    let final_next_frame := find_next_unlocked_frame kf F wrapped.1
    if final_next_frame = -1 then none
    else
      let new_context := get_keyframe_context_for_frame kf F final_next_frame
      let st2 :=
        if decide (context.start ≠ new_context.start) then
          update_playback_context kf F loop_btn wrapped.2 final_next_frame
        else wrapped.2
      if decide (0 ≤ final_next_frame) && decide (final_next_frame < (F : Int)) then
        some { st2 with cur := final_next_frame }
      else none

/-- Iterate the playback tick `n` times from a state (`none` once stopped). -/
def iterate_advance (kf : Keyframes) (F : Nat) (loop_btn : Bool) (st : PlayState) :
    Nat → Option PlayState
  | 0 => some st
  | n + 1 =>
    match iterate_advance kf F loop_btn st n with
    | some s => advance_frame kf F loop_btn s
    | none => none

/-- The state right after playback starts at frame 0 with segment-loop mode
off: cursor 0, loop fields reset, counters cleared (the effect of
`_update_playback_context(0)` with the loop button unchecked). -/
def playInit : PlayState :=
  { cur := 0, sub_loop_counters := [], is_in_complete_motion_loop := false,
    loop_return_point := -1, loop_end_point := -1 }

/-! ## Project-file persistence -/

/-- Python decimal digit of a value below 10. -/
def digitChar (d : Nat) : Char :=
  match d with
  | 0 => '0' | 1 => '1' | 2 => '2' | 3 => '3' | 4 => '4'
  | 5 => '5' | 6 => '6' | 7 => '7' | 8 => '8' | 9 => '9'
  | _ => '*'

/-- Digit production loop, structurally recursive on a fuel bound (any fuel
above the value itself is enough, see `natToDecimalAux_eq`). -/
def natToDecimalAux : Nat → Nat → List Char
  | 0, _ => []
  | fuel + 1, n =>
    if n < 10 then [digitChar n]
    else natToDecimalAux fuel (n / 10) ++ [digitChar (n % 10)]

/-- The decimal digits of a natural number (most significant first), as
produced by Python `str` on a nonnegative int. -/
def natToDecimal (n : Nat) : List Char := natToDecimalAux (n + 1) n

/-- Python `str(k)` for an int `k`. -/
def py_str_int (k : Int) : List Char :=
  if k < 0 then '-' :: natToDecimal k.natAbs else natToDecimal k.toNat

/-- The numeric value of a decimal digit character. -/
def digitVal (c : Char) : Option Nat :=
  if 48 ≤ c.toNat ∧ c.toNat ≤ 57 then some (c.toNat - 48) else none

/-- Decimal parsing accumulator. -/
def decimalToNatAux (acc : Nat) : List Char → Option Nat
  | [] => some acc
  | c :: rest =>
    match digitVal c with
    | none => none
    | some d => decimalToNatAux (acc * 10 + d) rest

/-- Parse a nonempty all-digit string as a natural number. -/
def decimalToNat? (cs : List Char) : Option Nat :=
  if cs.isEmpty then none else decimalToNatAux 0 cs

/-- Python `int(s)` on the decimal (possibly sign-prefixed) strings produced
by `str`; `none` models the `ValueError` raised on anything else. -/
def py_int_of_str (cs : List Char) : Option Int :=
  match cs with
  | [] => none
  | c :: rest =>
    if c = '-' then (decimalToNat? rest).map (fun n : Nat => -(n : Int))
    else (decimalToNat? (c :: rest)).map (fun n : Nat => (n : Int))

/-- A JSON value of a "keyframes" entry in a project file: either a bare
string (legacy schema) or an object. -/
inductive JVal where
  | jstr : List Char → JVal
  | jobj : KfData → JVal
deriving DecidableEq, Repr

/-- The "keyframes" object of a parsed project file: string keys in file
order. -/
abbrev ProjectKeyframes := List (List Char × JVal)

/-- `save_settings` line 575: the "keyframes" object written to the project
file is `{str(k): v for k, v in self.keyframes.items()}`. -/
def save_keyframes (kf : Keyframes) : ProjectKeyframes :=
  kf.map (fun p => (py_str_int p.1, JVal.jobj p.2))

/-- Python `pat in s` substring containment for strings. -/
def str_contains (s pat : List Char) : Bool := s.tails.any (fun t => pat.isPrefixOf t)

/-- Processing of one loaded keyframe entry (source lines 600-603):
first `if 'type' not in v: v['type'] = 1` — for a dict this defaults the
type field, for a bare string it is a substring test and the assignment
raises `TypeError` (modelled as `Except.error`); then the bare-string
upgrade of line 602 or the plain store of line 603, converting the key with
`int(k)` (which raises on a non-numeric key). -/
def load_keyframe_entry (k : List Char) (v : JVal) : Except Unit (Int × KfData) :=
  match v with
  | JVal.jstr s =>
    if str_contains s ['t', 'y', 'p', 'e'] then
      match py_int_of_str k with
      | some ki =>
        Except.ok (ki, { name := some s, type := some 1, loop := some 0,
                         locked := some false })
      | none => Except.error ()
    else Except.error ()
  | JVal.jobj d =>
    let d := if decide (d.type = none) then { d with type := some 1 } else d
    match py_int_of_str k with
    | some ki => Except.ok (ki, d)
    | none => Except.error ()

/-- The entry loop of `load_settings` (line 599), run after
`self.keyframes.clear()`: entries are stored one by one; an entry failure
aborts the loop (the exception propagates to the handler at line 610),
leaving the map with the prefix stored so far. -/
def load_keyframes_loop (acc : Keyframes) : ProjectKeyframes → Bool × Keyframes
  | [] => (true, acc)
  | (k, v) :: rest =>
    match load_keyframe_entry k v with
    | Except.ok kv => load_keyframes_loop (dict_set acc kv.1 kv.2) rest
    | Except.error _ => (false, acc)

/-- `load_settings` (source lines 595-611), modelled on the file content:
`none` means open/`json.load` raised before any mutation of the map, and
`some entries` is the parsed "keyframes" object. Returns the reported
success and the keyframe map afterwards. -/
def load_settings (old : Keyframes) : Option ProjectKeyframes → Bool × Keyframes
  | none => (false, old)
  | some entries => load_keyframes_loop [] entries


/-! ## Claim theorems: concrete functional cases -/

/-- C1: for the keyframe map {0: Start, 3: Middle(loop=2), 9: End} and
frameCount 10, the context query at frame 5 returns the segment [0, 9] of
type "complete" with data the keyframe stored at 0 and exactly the two
sub-motions [0, 2] and [3, 9], in that order. -/
theorem C1_context_of_frame_5 :
    get_keyframe_context_for_frame kfExample 10 5 =
      { start := some 0, stop := some 9, data := startKf, mtype := MType.complete,
        sub_motions := [⟨0, 2, startKf⟩, ⟨3, 9, middleKf⟩] } := by decide

/-- C2: playback over the example map with segment-loop mode off, started at
frame 0, displays 0..9, then repeats the sub-motion [3, 9] exactly twice more
(the counter of sub-motion start 3 reaching loop = 2 at the third visit of
frame 9), then wraps to frame 0 with the state returning exactly to the
initial one, so the pattern recurs. -/
theorem C2_playback_sequence :
    ((List.range 25).map
        (fun n => (iterate_advance kfExample 10 false playInit n).map PlayState.cur) =
      ([0, 1, 2, 3, 4, 5, 6, 7, 8, 9, 3, 4, 5, 6, 7, 8, 9, 3, 4, 5, 6, 7, 8, 9, 0] :
          List Int).map some) ∧
    ((iterate_advance kfExample 10 false playInit 23).map
        (fun s => dict_get s.sub_loop_counters 3 0) = some 2) ∧
    iterate_advance kfExample 10 false playInit 24 = some playInit :=
  ⟨by decide, by decide, by decide⟩

/-- C3 counterexample: frame index -1 lies outside [0, frameCount) for the
map {0: End} with frameCount 1, yet the context query returns the
"simple_end" segment, not the empty context, refuting the claim that every
out-of-range index yields the "none" context. -/
theorem C3_counterexample :
    (get_keyframe_context_for_frame [(0, endKf)] 1 (-1)).mtype = MType.simple_end ∧
    get_keyframe_context_for_frame [(0, endKf)] 1 (-1) ≠ default_context := by decide

/-- C4 counterexample: a load whose JSON parses but whose single keyframe
entry has the unparsable key "abc" fails after `self.keyframes.clear()`, so
the map afterwards is empty rather than the pre-load map {0: Start},
refuting all-or-nothing for entry-level failures. -/
theorem C4_counterexample :
    load_settings [(0, startKf)] (some [(['a', 'b', 'c'], JVal.jobj middleKf)]) =
      (false, ([] : Keyframes)) ∧
    ([] : Keyframes) ≠ [(0, startKf)] := by decide

/-- C4 amended: loading is all-or-nothing only for failures that occur
before the JSON content is parsed (unreadable file or malformed JSON): then
the load reports failure and the keyframe map is exactly the previous one.
When a keyframe entry itself fails to parse, the load reports failure but
the map has already been cleared and holds the prefix of entries processed
before the failure. -/
theorem C4_load_failure_behavior (old : Keyframes) :
    load_settings old none = (false, old) ∧
    load_settings old (some [(['0'], JVal.jobj startKf), (['x'], JVal.jobj middleKf)]) =
      (false, [(0, startKf)]) :=
  ⟨rfl, rfl⟩

/-- C5 (code bug): loading a legacy entry whose value is the bare string
"Walk" fails — line 600 runs `'type' not in v` as a substring test and then
`v['type'] = 1` raises `TypeError` on the string — leaving the map cleared,
while a bare string that happens to contain "type" as a substring reaches
the upgrade of line 602 and is stored as the upgraded record the spec
describes. -/
theorem C5_bare_string_load (old : Keyframes) :
    load_settings old (some [(['0'], JVal.jstr ['W', 'a', 'l', 'k'])]) =
      (false, ([] : Keyframes)) ∧
    load_settings old (some [(['0'], JVal.jstr ['t', 'y', 'p', 'e', 'A'])]) =
      (true, [(0, { name := some ['t', 'y', 'p', 'e', 'A'], type := some 1,
                    loop := some 0, locked := some false })]) :=
  ⟨rfl, rfl⟩

/-! ## General lemmas about the segmentation query -/

lemma mem_sortKeys {l : List Int} {x : Int} : x ∈ sortKeys l ↔ x ∈ l :=
  (List.perm_insertionSort _ l).mem_iff

lemma sortKeys_sorted (l : List Int) : (sortKeys l).Sorted (fun a b => a ≤ b) :=
  List.sorted_insertionSort _ l

lemma sortKeys_ne_nil {l : List Int} (h : l ≠ []) : sortKeys l ≠ [] := by
  intro hc
  have hp := List.perm_insertionSort (fun a b => a ≤ b) l
  rw [show List.insertionSort (fun a b => a ≤ b) l = sortKeys l from rfl, hc] at hp
  exact h hp.symm.eq_nil

lemma sorted_head?_eq_min {l : List Int} (hs : l.Sorted (fun a b => a ≤ b)) {m : Int}
    (hm : m ∈ l) (hmin : ∀ x ∈ l, m ≤ x) : l.head? = some m := by
  cases l with
  | nil => cases hm
  | cons a t =>
    simp only [List.head?_cons, Option.some.injEq]
    rcases List.mem_cons.mp hm with h | h
    · exact h.symm
    · have h1 : a ≤ m := (List.sorted_cons.mp hs).1 m h
      have h2 : m ≤ a := hmin a (List.mem_cons_self a t)
      omega

lemma getD_mem_of_lt {l : List Int} {n : Nat} (h : n < l.length) : l.getD n 0 ∈ l := by
  induction l generalizing n with
  | nil => simp at h
  | cons a t ih =>
    cases n with
    | zero => simp [List.getD]
    | succ n =>
      simp only [List.getD_cons_succ]
      exact List.mem_cons_of_mem a (ih (by simpa using h))

lemma scan_end_lt {kf : Keyframes} {F : Nat} {sk : List Int} {s : Int} {l : List Int}
    (hl : ∀ k ∈ l, k < (F : Int)) :
    (scan_end kf F sk s l).1 < (F : Int) := by
  induction l with
  | nil =>
    simp only [scan_end]
    omega
  | cons k rest ih =>
    have hk := hl k (List.mem_cons_self _ _)
    have hrest : ∀ x ∈ rest, x < (F : Int) := fun x hx => hl x (List.mem_cons_of_mem _ hx)
    simp only [scan_end]
    split
    · split
      · simpa using by omega
      · split
        · simpa using hk
        · exact ih hrest
    · exact ih hrest

lemma simple_end_check_eq_some {kf : Keyframes} {sk : List Int} {i : Int} {ctx : SegCtx}
    (h : simple_end_check kf sk i = some ctx) :
    ∃ fk, sk.head? = some fk ∧ i ≤ fk ∧
      ctx = { start := some 0, stop := some fk, data := kfGet kf fk,
              mtype := MType.simple_end,
              sub_motions := [⟨0, fk, kfGet kf fk⟩] } := by
  unfold simple_end_check at h
  cases hh : sk.head? with
  | none => rw [hh] at h; cases h
  | some fk =>
    rw [hh] at h
    simp only at h
    split at h
    · split at h
      case isTrue hcond =>
        refine ⟨fk, rfl, ?_, ?_⟩
        · simp only [Bool.and_eq_true, decide_eq_true_eq] at hcond
          exact hcond.2
        · cases h; rfl
      case isFalse => cases h
    · cases h

lemma main_segment_eq_default_of_ge {kf : Keyframes} {F : Nat} {sk : List Int} {i : Int}
    (hsk : ∀ k ∈ sk, k < (F : Int)) (hi : (F : Int) ≤ i) :
    main_segment kf F sk i = default_context := by
  simp only [main_segment]
  split
  · rfl
  · split
    · rfl
    · split
      case isTrue hg =>
        exfalso
        simp only [Bool.and_eq_true, decide_eq_true_eq] at hg
        have h2 := hg.2
        have h3 := @scan_end_lt kf F sk
          ((true_start_keys kf sk).getD (bisect_right (true_start_keys kf sk) i - 1) 0)
          sk hsk
        omega
      · rfl

lemma main_segment_eq_default_of_neg {kf : Keyframes} {F : Nat} {sk : List Int} {i : Int}
    (hkeys : ∀ k ∈ kf.map Prod.fst, 0 ≤ k) (hi : i < 0) :
    main_segment kf F sk i = default_context := by
  simp only [main_segment]
  split
  · rfl
  · have hip : bisect_right (true_start_keys kf sk) i = 0 := by
      apply List.countP_eq_zero.mpr
      intro a ha
      have ha2 : a ∈ (kf.filter fun p => is_true_start kf sk p.1 p.2).map Prod.fst :=
        mem_sortKeys.mp ha
      obtain ⟨p, hp, rfl⟩ := List.mem_map.mp ha2
      have hm : p ∈ kf := List.mem_of_mem_filter hp
      have : (0 : Int) ≤ p.1 := hkeys p.1 (List.mem_map.mpr ⟨p, hm, rfl⟩)
      simp only [decide_eq_true_eq]
      omega
    rw [show bisect_right (true_start_keys kf sk) i = 0 from hip]
    simp

/-- C3 amended: with all keyframe indices inside [0, frameCount), a query at
i ≥ frameCount returns the empty context, and a query at negative i returns
the empty context unless the "simple_end" special case applies, in which
case the simple_end segment is returned (the code compares `i <= first_key`
without a lower bound); no query raises. -/
theorem C3_out_of_range (kf : Keyframes) (F : Nat) (i : Int)
    (hkeys : ∀ p ∈ kf, 0 ≤ p.1 ∧ p.1 < (F : Int)) :
    (((F : Int) ≤ i → get_keyframe_context_for_frame kf F i = default_context) ∧
     (i < 0 → get_keyframe_context_for_frame kf F i = default_context ∨
       (get_keyframe_context_for_frame kf F i).mtype = MType.simple_end)) := by
  have hsk : ∀ k ∈ sortKeys (kf.map Prod.fst), 0 ≤ k ∧ k < (F : Int) := by
    intro k hk
    obtain ⟨p, hp, rfl⟩ := List.mem_map.mp (mem_sortKeys.mp hk)
    exact hkeys p hp
  constructor
  · intro hFi
    unfold get_keyframe_context_for_frame
    split
    · rfl
    case isFalse hguard =>
      simp only
      cases hse : simple_end_check kf (sortKeys (kf.map Prod.fst)) i with
      | some ctx =>
        exfalso
        obtain ⟨fk, hhead, hifk, _⟩ := simple_end_check_eq_some hse
        have hfkmem : fk ∈ sortKeys (kf.map Prod.fst) :=
          List.mem_of_mem_head? (by rw [hhead]; exact rfl)
        have := (hsk fk hfkmem).2
        omega
      | none =>
        exact main_segment_eq_default_of_ge (fun k hk => (hsk k hk).2) hFi
  · intro hi
    unfold get_keyframe_context_for_frame
    split
    · exact Or.inl rfl
    · simp only
      cases hse : simple_end_check kf (sortKeys (kf.map Prod.fst)) i with
      | some ctx =>
        right
        obtain ⟨fk, _, _, hctx⟩ := simple_end_check_eq_some hse
        rw [hctx]
      | none =>
        left
        exact main_segment_eq_default_of_neg
          (fun k hk => (hsk k (mem_sortKeys.mpr hk)).1) hi

/-- C3 witness: the amended theorem applied to the example map at the
out-of-range index 10 (frameCount 10). -/
theorem C3_out_of_range_witness :
    get_keyframe_context_for_frame kfExample 10 10 = default_context :=
  (C3_out_of_range kfExample 10 10 (by decide)).1 (by decide)

/-! ## C7: the circular unlocked-frame scan -/

lemma find_aux_step_pred (kf : Keyframes) (F : Nat) (idx : Int) :
    (decide ((get_keyframe_context_for_frame kf F idx).mtype = MType.mnone)
      || !((get_keyframe_context_for_frame kf F idx).data.locked.getD false))
      = !(frame_is_locked kf F idx) := by
  simp only [frame_is_locked, Bool.not_and, Bool.not_not, decide_not]

lemma find_aux_spec (kf : Keyframes) (F : Nat) (hF : 0 < F) :
    ∀ (fuel : Nat) (idx : Int), 0 ≤ idx → idx ≤ (F : Int) →
      (find_next_unlocked_aux kf F idx fuel = -1 ↔
        ∀ j : Nat, j < fuel → frame_is_locked kf F ((idx + j) % (F : Int)) = true) ∧
      (find_next_unlocked_aux kf F idx fuel ≠ -1 →
        ∃ j : Nat, j < fuel ∧
          find_next_unlocked_aux kf F idx fuel = (idx + j) % (F : Int) ∧
          frame_is_locked kf F ((idx + j) % (F : Int)) = false ∧
          ∀ j2 : Nat, j2 < j → frame_is_locked kf F ((idx + j2) % (F : Int)) = true) := by
  intro fuel
  induction fuel with
  | zero =>
    intro idx _ _
    constructor
    · simp [find_next_unlocked_aux]
    · simp [find_next_unlocked_aux]
  | succ fuel ih =>
    intro idx h0 hle
    have hFi : (0 : Int) < (F : Int) := by exact_mod_cast hF
    have hidx' : (if decide ((F : Int) ≤ idx) then 0 else idx) = idx % (F : Int) := by
      split
      case isTrue h =>
        have hFle := of_decide_eq_true h
        have : idx = (F : Int) := by omega
        simp [this]
      case isFalse h =>
        have hFgt : ¬ ((F : Int) ≤ idx) := by simpa using h
        have : idx < (F : Int) := by omega
        exact (Int.emod_eq_of_lt h0 this).symm
    have hmod0 : (idx + (0 : Nat)) % (F : Int) = idx % (F : Int) := by simp
    have hnext : ∀ j : Nat, (idx % (F : Int) + 1 + (j : Int)) % (F : Int) =
        (idx + ((j + 1 : Nat) : Int)) % (F : Int) := by
      intro j
      conv_lhs => rw [Int.add_emod, Int.add_emod (idx % (F : Int)) 1, Int.emod_emod_of_dvd _ dvd_rfl]
      conv_rhs => rw [show ((j + 1 : Nat) : Int) = 1 + (j : Int) by push_cast; ring,
        ← add_assoc, Int.add_emod, Int.add_emod idx 1]
    simp only [find_next_unlocked_aux, hidx', find_aux_step_pred]
    have hmodlt : idx % (F : Int) < (F : Int) := Int.emod_lt_of_pos idx hFi
    have hmodge : 0 ≤ idx % (F : Int) := Int.emod_nonneg idx (by omega)
    cases hlock : frame_is_locked kf F (idx % (F : Int)) with
    | false =>
      rw [Bool.not_false, if_pos rfl]
      constructor
      · constructor
        · intro hc
          exact absurd hc (by omega)
        · intro hall
          have := hall 0 (Nat.succ_pos fuel)
          rw [hmod0] at this
          rw [this] at hlock
          cases hlock
      · intro _
        refine ⟨0, Nat.succ_pos fuel, ?_, ?_, ?_⟩
        · rw [hmod0]
        · rw [hmod0]; exact hlock
        · intro j2 hj2; omega
    | true =>
      rw [Bool.not_true, if_neg (by simp)]
      obtain ⟨ih1, ih2⟩ := ih (idx % (F : Int) + 1) (by omega) (by omega)
      constructor
      · rw [ih1]
        constructor
        · intro hall j hj
          cases j with
          | zero => rw [hmod0]; exact hlock
          | succ j =>
            have := hall j (by omega)
            rw [hnext j] at this
            exact this
        · intro hall j hj
          rw [hnext j]
          exact hall (j + 1) (by omega)
      · intro hne
        obtain ⟨j, hj, heq, hunlock, hmin⟩ := ih2 hne
        refine ⟨j + 1, by omega, ?_, ?_, ?_⟩
        · rw [heq, ← hnext j]
        · rw [← hnext j]; exact hunlock
        · intro j2 hj2
          cases j2 with
          | zero => rw [hmod0]; exact hlock
          | succ j2 =>
            have := hmin j2 (by omega)
            rw [hnext j2] at this
            exact this

/-- C7: for frameCount > 0 and a start index in range, the circular scan of
`_find_next_unlocked_frame` returns -1 exactly when every frame in
[0, frameCount) is locked, and otherwise returns the first frame of the
circular candidate order start, start+1, ..., wrapping to 0, whose lock test
is false; it examines at most frameCount candidates (the loop budget is
`frameCount`, so an all-locked sequence of length 5 is rejected after
exactly 5 checks). -/
theorem C7_next_unlocked_scan (kf : Keyframes) (F : Nat) (start : Int)
    (hF : 0 < F) (h0 : 0 ≤ start) (hlt : start < (F : Int)) :
    ((find_next_unlocked_frame kf F start = -1 ↔
      ∀ i : Int, 0 ≤ i → i < (F : Int) → frame_is_locked kf F i = true) ∧
     (find_next_unlocked_frame kf F start ≠ -1 →
       ∃ j : Nat, j < F ∧
         find_next_unlocked_frame kf F start = (start + j) % (F : Int) ∧
         frame_is_locked kf F ((start + j) % (F : Int)) = false ∧
         ∀ j2 : Nat, j2 < j → frame_is_locked kf F ((start + j2) % (F : Int)) = true)) := by
  have hFi : (0 : Int) < (F : Int) := by exact_mod_cast hF
  have hfr : find_next_unlocked_frame kf F start = find_next_unlocked_aux kf F start F := by
    unfold find_next_unlocked_frame
    rw [if_neg (by omega)]
  obtain ⟨h1, h2⟩ := find_aux_spec kf F hF F start h0 (by omega)
  constructor
  · rw [hfr, h1]
    constructor
    · intro hall i hi0 hiF
      have hj0 : 0 ≤ (i - start) % (F : Int) := Int.emod_nonneg _ (by omega)
      have hjlt : (i - start) % (F : Int) < (F : Int) := Int.emod_lt_of_pos _ hFi
      have hcast : (((i - start) % (F : Int)).toNat : Int) = (i - start) % (F : Int) :=
        Int.toNat_of_nonneg hj0
      have hjF : ((i - start) % (F : Int)).toNat < F := by omega
      have := hall ((i - start) % (F : Int)).toNat hjF
      rw [hcast] at this
      have heq : (start + (i - start) % (F : Int)) % (F : Int) = i := by
        rw [Int.add_emod, Int.emod_emod_of_dvd _ dvd_rfl, ← Int.add_emod]
        have : start + (i - start) = i := by ring
        rw [this]
        exact Int.emod_eq_of_lt hi0 hiF
      rwa [heq] at this
    · intro hall j _
      exact hall _ (Int.emod_nonneg _ (by omega)) (Int.emod_lt_of_pos _ hFi)
  · rw [hfr]
    exact h2

/-- C7 witness: over the all-locked single-segment map of length 5 the scan
returns -1, equivalently every frame in [0, 5) is locked. -/
theorem C7_next_unlocked_scan_witness :
    (find_next_unlocked_frame [(0, { startKf with locked := some true })] 5 0 = -1 ↔
      ∀ i : Int, 0 ≤ i → i < ((5 : Nat) : Int) →
        frame_is_locked [(0, { startKf with locked := some true })] 5 i = true) :=
  (C7_next_unlocked_scan [(0, { startKf with locked := some true })] 5 0
    (by decide) (by decide) (by decide)).1

/-! ## C8: the simple_end special case -/

lemma guard_false_of_ne_nil {kf : Keyframes} {F : Nat} (hne : kf ≠ []) (hF : 0 < F) :
    (kf.isEmpty || (F == 0)) = false := by
  cases kf with
  | nil => exact absurd rfl hne
  | cons a t =>
    simp only [List.isEmpty_cons, Bool.false_or]
    simpa using Nat.pos_iff_ne_zero.mp hF

lemma c8_simple_end_general (kf : Keyframes) (F : Nat) (m i : Int)
    (hne : kf ≠ []) (hF : 0 < F)
    (hm : m ∈ kf.map Prod.fst) (hmin : ∀ k ∈ kf.map Prod.fst, m ≤ k)
    (htype : (kfGet kf m).type = some 9)
    (_h0 : 0 ≤ i) (him : i ≤ m) :
    get_keyframe_context_for_frame kf F i =
      { start := some 0, stop := some m, data := kfGet kf m,
        mtype := MType.simple_end, sub_motions := [⟨0, m, kfGet kf m⟩] } := by
  have hmin' : ∀ x ∈ sortKeys (kf.map Prod.fst), m ≤ x :=
    fun x hx => hmin x (mem_sortKeys.mp hx)
  have hhead : (sortKeys (kf.map Prod.fst)).head? = some m :=
    sorted_head?_eq_min (sortKeys_sorted _) (mem_sortKeys.mpr hm) hmin'
  have hany1 : (sortKeys (kf.map Prod.fst)).any (fun k =>
      decide (k < m) &&
        (decide ((kfGet kf k).type = some 1) || decide ((kfGet kf k).type = some 2))) =
      false := by
    apply List.any_eq_false.mpr
    intro x hx
    have hge := hmin' x hx
    simp only [Bool.and_eq_true, decide_eq_true_eq, not_and]
    intro hlt
    omega
  have hany2 : (sortKeys (kf.map Prod.fst)).any (fun k =>
      decide (k < m) && (kfGet kf k).locked.getD false &&
        decide ((kfGet kf k).type ≠ some 9)) = false := by
    apply List.any_eq_false.mpr
    intro x hx
    have hge := hmin' x hx
    simp only [Bool.and_eq_true, decide_eq_true_eq, not_and]
    intro hlt
    omega
  have hcheck : simple_end_check kf (sortKeys (kf.map Prod.fst)) i =
      some { start := some 0, stop := some m, data := kfGet kf m,
             mtype := MType.simple_end, sub_motions := [⟨0, m, kfGet kf m⟩] } := by
    unfold simple_end_check
    rw [hhead]
    simp only
    rw [if_pos (decide_eq_true htype)]
    rw [hany1, hany2]
    rw [if_pos (by simp [him])]
  unfold get_keyframe_context_for_frame
  rw [if_neg (by rw [guard_false_of_ne_nil hne hF]; exact Bool.false_ne_true)]
  simp only [hcheck]

lemma c8_end_only (F : Nat) (i : Int) (hi : 0 < i) :
    get_keyframe_context_for_frame [(0, endKf)] F i = default_context := by
  unfold get_keyframe_context_for_frame
  split
  · rfl
  · simp only
    have hse : simple_end_check [(0, endKf)]
        (sortKeys (([(0, endKf)] : Keyframes).map Prod.fst)) i = none := by
      simp [simple_end_check, sortKeys, List.insertionSort, kfGet, endKf,
        show ¬(i ≤ 0) from by omega]
    rw [hse]
    simp [main_segment, true_start_keys, sortKeys, List.insertionSort, is_true_start,
      is_sub_motion, kfGet, endKf]

/-- C8: if the smallest-index keyframe of a nonempty map has type End (the
preceding-Start/Middle and preceding-locked conditions being vacuous for the
minimal key), every query at 0 ≤ i ≤ that index returns the simple_end
segment [0, thatIndex] carrying that keyframe's data; and for the map
{0: End} every query at i > 0 returns the empty context. -/
theorem C8_simple_end_case :
    (∀ (kf : Keyframes) (F : Nat) (m i : Int),
      kf ≠ [] → 0 < F → m ∈ kf.map Prod.fst → (∀ k ∈ kf.map Prod.fst, m ≤ k) →
      (kfGet kf m).type = some 9 → 0 ≤ i → i ≤ m →
      get_keyframe_context_for_frame kf F i =
        { start := some 0, stop := some m, data := kfGet kf m,
          mtype := MType.simple_end, sub_motions := [⟨0, m, kfGet kf m⟩] }) ∧
    (∀ (F : Nat) (i : Int), 0 < i →
      get_keyframe_context_for_frame [(0, endKf)] F i = default_context) :=
  ⟨c8_simple_end_general, c8_end_only⟩

/-- C8 witness: the map {0: End} with frameCount 1 queried at 0 gives the
simple_end segment [0, 0], and queried at 1 gives the empty context. -/
theorem C8_simple_end_case_witness :
    get_keyframe_context_for_frame [(0, endKf)] 1 0 =
      { start := some 0, stop := some 0, data := kfGet [(0, endKf)] 0,
        mtype := MType.simple_end, sub_motions := [⟨0, 0, kfGet [(0, endKf)] 0⟩] } ∧
    get_keyframe_context_for_frame [(0, endKf)] 1 1 = default_context :=
  ⟨C8_simple_end_case.1 [(0, endKf)] 1 0 0 (by decide) (by decide) (by decide)
      (by decide) (by decide) (by decide) (by decide),
   C8_simple_end_case.2 1 1 (by decide)⟩

/-! ## C9: locking the Start keyframe -/

/-- The example map with the Start keyframe at 0 locked. -/
def startLockedKf : KfData := { startKf with locked := some true }

def kfExampleLocked : Keyframes := [(0, startLockedKf), (3, middleKf), (9, endKf)]

lemma select_frame_locked_noop {kf : Keyframes} {F : Nat} {i : Int}
    (h : frame_is_locked kf F i = true) :
    ∀ sel : Option Int, select_frame kf F sel i false = sel := by
  intro sel
  unfold select_frame
  split
  · rfl
  · rw [if_pos (by simp [h])]

/-- C9: with the Start keyframe at 0 locked in the example map (frameCount
10), every frame in [0, 10) is locked, direct (non-playback) selection of
any such frame leaves the selected frame unchanged, and the context query
returns the same segment boundaries, type and sub-motion boundaries as the
unlocked map — the returned data differs only in the locked flag. -/
theorem C9_locked_start :
    ∀ i : Int, 0 ≤ i → i < (10 : Int) →
      frame_is_locked kfExampleLocked 10 i = true ∧
      (∀ sel : Option Int, select_frame kfExampleLocked 10 sel i false = sel) ∧
      ((get_keyframe_context_for_frame kfExampleLocked 10 i).start =
          (get_keyframe_context_for_frame kfExample 10 i).start ∧
        (get_keyframe_context_for_frame kfExampleLocked 10 i).stop =
          (get_keyframe_context_for_frame kfExample 10 i).stop ∧
        (get_keyframe_context_for_frame kfExampleLocked 10 i).mtype =
          (get_keyframe_context_for_frame kfExample 10 i).mtype ∧
        (get_keyframe_context_for_frame kfExampleLocked 10 i).sub_motions.map
            (fun s => (s.start, s.stop)) =
          (get_keyframe_context_for_frame kfExample 10 i).sub_motions.map
            (fun s => (s.start, s.stop)) ∧
        (get_keyframe_context_for_frame kfExampleLocked 10 i).data =
          { (get_keyframe_context_for_frame kfExample 10 i).data with
              locked := some true }) := by
  have hdec : ∀ n : Nat, n < 10 →
      (frame_is_locked kfExampleLocked 10 (n : Int) = true ∧
        ((get_keyframe_context_for_frame kfExampleLocked 10 (n : Int)).start =
            (get_keyframe_context_for_frame kfExample 10 (n : Int)).start ∧
          (get_keyframe_context_for_frame kfExampleLocked 10 (n : Int)).stop =
            (get_keyframe_context_for_frame kfExample 10 (n : Int)).stop ∧
          (get_keyframe_context_for_frame kfExampleLocked 10 (n : Int)).mtype =
            (get_keyframe_context_for_frame kfExample 10 (n : Int)).mtype ∧
          (get_keyframe_context_for_frame kfExampleLocked 10 (n : Int)).sub_motions.map
              (fun s => (s.start, s.stop)) =
            (get_keyframe_context_for_frame kfExample 10 (n : Int)).sub_motions.map
              (fun s => (s.start, s.stop)) ∧
          (get_keyframe_context_for_frame kfExampleLocked 10 (n : Int)).data =
            { (get_keyframe_context_for_frame kfExample 10 (n : Int)).data with
                locked := some true })) := by decide
  intro i h0 hlt
  obtain ⟨n, rfl⟩ := Int.eq_ofNat_of_zero_le h0
  have hn : n < 10 := by exact_mod_cast hlt
  obtain ⟨h1, h2⟩ := hdec n hn
  exact ⟨h1, select_frame_locked_noop h1, h2⟩

/-- C9 witness: the theorem applied at frame 5 with selected frame 2. -/
theorem C9_locked_start_witness :
    frame_is_locked kfExampleLocked 10 5 = true ∧
    select_frame kfExampleLocked 10 (some 2) 5 false = some 2 :=
  ⟨(C9_locked_start 5 (by decide) (by decide)).1,
   (C9_locked_start 5 (by decide) (by decide)).2.1 (some 2)⟩

/-! ## C6: save/load round trip -/

lemma digitVal_digitChar {d : Nat} (h : d < 10) : digitVal (digitChar d) = some d := by
  have hall : ∀ d2 : Nat, d2 < 10 → digitVal (digitChar d2) = some d2 := by decide
  exact hall d h

lemma digitChar_ne_dash (d : Nat) : digitChar d ≠ '-' := by
  unfold digitChar
  split <;> decide

lemma decimalToNatAux_append (acc : Nat) (l1 l2 : List Char) :
    decimalToNatAux acc (l1 ++ l2) =
      match decimalToNatAux acc l1 with
      | none => none
      | some a => decimalToNatAux a l2 := by
  induction l1 generalizing acc with
  | nil => rfl
  | cons c rest ih =>
    simp only [List.cons_append, decimalToNatAux]
    cases digitVal c with
    | none => rfl
    | some d => exact ih (acc * 10 + d)

lemma natToDecimalAux_ne_nil (fuel n : Nat) : natToDecimalAux (fuel + 1) n ≠ [] := by
  unfold natToDecimalAux
  split
  · simp
  · simp

lemma natToDecimalAux_spec :
    ∀ (fuel n : Nat), n < fuel → ∀ acc : Nat,
      decimalToNatAux acc (natToDecimalAux fuel n) =
        some (acc * 10 ^ (natToDecimalAux fuel n).length + n) := by
  intro fuel
  induction fuel with
  | zero => intro n h; omega
  | succ fuel ih =>
    intro n hn acc
    unfold natToDecimalAux
    split
    case isTrue h =>
      simp only [decimalToNatAux, digitVal_digitChar h, List.length_singleton]
      simp
    case isFalse h =>
      have hdiv : n / 10 < fuel := by omega
      rw [decimalToNatAux_append]
      rw [ih (n / 10) hdiv acc]
      simp only [decimalToNatAux, digitVal_digitChar (Nat.mod_lt n (by omega)),
        List.length_append, List.length_singleton]
      have h1 : (n / 10) * 10 + n % 10 = n := by omega
      congr 1
      calc (acc * 10 ^ (natToDecimalAux fuel (n / 10)).length + n / 10) * 10 + n % 10
          = acc * 10 ^ (natToDecimalAux fuel (n / 10)).length * 10 +
              ((n / 10) * 10 + n % 10) := by ring
        _ = acc * 10 ^ (natToDecimalAux fuel (n / 10)).length * 10 + n := by rw [h1]
        _ = acc * 10 ^ ((natToDecimalAux fuel (n / 10)).length + 1) + n := by ring

lemma decimalToNat?_natToDecimal (n : Nat) : decimalToNat? (natToDecimal n) = some n := by
  unfold decimalToNat? natToDecimal
  rw [if_neg (by simpa using natToDecimalAux_ne_nil n n)]
  rw [natToDecimalAux_spec (n + 1) n (by omega) 0]
  simp

lemma natToDecimalAux_head_ne_dash :
    ∀ (fuel n : Nat) (c : Char) (rest : List Char),
      natToDecimalAux fuel n = c :: rest → c ≠ '-' := by
  intro fuel
  induction fuel with
  | zero => intro n c rest h; cases h
  | succ fuel ih =>
    intro n c rest h
    unfold natToDecimalAux at h
    split at h
    · cases h
      exact digitChar_ne_dash n
    · cases hxs : natToDecimalAux fuel (n / 10) with
      | nil =>
        rw [hxs, List.nil_append] at h
        cases h
        exact digitChar_ne_dash (n % 10)
      | cons a t =>
        rw [hxs, List.cons_append] at h
        injection h with h1 h2
        exact h1 ▸ ih (n / 10) a t hxs

lemma py_int_of_str_py_str_int (k : Int) : py_int_of_str (py_str_int k) = some k := by
  unfold py_str_int
  split
  case isTrue hneg =>
    simp only [py_int_of_str, if_pos rfl]
    rw [decimalToNat?_natToDecimal]
    simp only [Option.map_some']
    show some (-(k.natAbs : Int)) = some k
    congr 1
    omega

  case isFalse hpos =>
    cases hc : natToDecimal k.toNat with
    | nil => exact absurd hc (by simpa [natToDecimal] using natToDecimalAux_ne_nil k.toNat k.toNat)
    | cons c rest =>
      simp only [hc, py_int_of_str]
      rw [if_neg (natToDecimalAux_head_ne_dash (k.toNat + 1) k.toNat c rest hc)]
      rw [← hc, decimalToNat?_natToDecimal]
      simp only [Option.map_some']
      show some ((k.toNat : Nat) : Int) = some k
      congr 1
      omega

lemma dict_set_append {acc : Keyframes} {k : Int} {v : KfData}
    (h : ∀ q ∈ acc, q.1 ≠ k) : dict_set acc k v = acc ++ [(k, v)] := by
  unfold dict_set
  rw [if_neg]
  intro hc
  obtain ⟨q, hq, hqe⟩ := List.any_eq_true.mp hc
  exact h q hq (of_decide_eq_true hqe)

lemma load_save_loop :
    ∀ (kf acc : Keyframes),
      (∀ p ∈ kf, p.2.type ≠ none) →
      (kf.map Prod.fst).Nodup →
      (∀ p ∈ kf, ∀ q ∈ acc, q.1 ≠ p.1) →
      load_keyframes_loop acc (save_keyframes kf) = (true, acc ++ kf) := by
  intro kf
  induction kf with
  | nil =>
    intro acc _ _ _
    simp [save_keyframes, load_keyframes_loop]
  | cons p rest ih =>
    intro acc htype hnodup hdisj
    obtain ⟨k, v⟩ := p
    have hv : v.type ≠ none := htype (k, v) (List.mem_cons_self _ _)
    have hd : decide (v.type = none) = false := by simpa using hv
    have hentry : load_keyframe_entry (py_str_int k) (JVal.jobj v) = Except.ok (k, v) := by
      simp [load_keyframe_entry, hd, py_int_of_str_py_str_int]
    simp only [save_keyframes, List.map_cons, load_keyframes_loop, hentry]
    rw [dict_set_append (fun q hq => hdisj (k, v) (List.mem_cons_self _ _) q hq)]
    rw [List.map_cons] at hnodup
    have hnodup' : (rest.map Prod.fst).Nodup := (List.nodup_cons.mp hnodup).2
    have hknotin : k ∉ rest.map Prod.fst := (List.nodup_cons.mp hnodup).1
    have hdisj' : ∀ p2 ∈ rest, ∀ q ∈ acc ++ [(k, v)], q.1 ≠ p2.1 := by
      intro p2 hp2 q hq
      rcases List.mem_append.mp hq with hq | hq
      · exact hdisj p2 (List.mem_cons_of_mem _ hp2) q hq
      · have : q = (k, v) := by simpa using hq
        subst this
        intro hkeq
        exact hknotin (List.mem_map.mpr ⟨p2, hp2, hkeq.symm⟩)
    show load_keyframes_loop (acc ++ [(k, v)]) (save_keyframes rest) =
      (true, acc ++ (k, v) :: rest)
    rw [ih (acc ++ [(k, v)]) (fun p2 hp2 => htype p2 (List.mem_cons_of_mem _ hp2))
      hnodup' hdisj']
    simp

/-- C6: saving a keyframe map whose values carry all four fields (name, a
type among 1, 2, 9, loop, locked) to the project-file schema and loading it
back reproduces the identical map, loop and locked fields included. -/
theorem C6_round_trip (old kf : Keyframes)
    (hnodup : (kf.map Prod.fst).Nodup)
    (hfields : ∀ p ∈ kf, p.2.name.isSome ∧
      (p.2.type = some 1 ∨ p.2.type = some 2 ∨ p.2.type = some 9) ∧
      p.2.loop.isSome ∧ p.2.locked.isSome) :
    load_settings old (some (save_keyframes kf)) = (true, kf) := by
  have htype : ∀ p ∈ kf, p.2.type ≠ none := by
    intro p hp
    rcases (hfields p hp).2.1 with h | h | h <;> simp [h]
  show load_keyframes_loop [] (save_keyframes kf) = (true, kf)
  rw [load_save_loop kf [] htype hnodup (by simp)]
  simp

/-- C6 witness: the round trip applied to a three-entry map exercising all
three type values, from a nonempty previous map. -/
theorem C6_round_trip_witness :
    load_settings [(7, endKf)]
      (some (save_keyframes [(0, startKf), (3, middleKf),
        (9, { endKf with name := some ['E', 'n', 'd'] })])) =
      (true, [(0, startKf), (3, middleKf),
        (9, { endKf with name := some ['E', 'n', 'd'] })]) :=
  C6_round_trip [(7, endKf)]
    [(0, startKf), (3, middleKf), (9, { endKf with name := some ['E', 'n', 'd'] })]
    (by decide) (by decide)

/-! ## C10: the sub-motion partition invariant -/

lemma build_sub_motions_ne_nil {kf : Keyframes} {e : Int} {l : List Int} (h : l ≠ []) :
    build_sub_motions kf e l ≠ [] := by
  cases l with
  | nil => exact absurd rfl h
  | cons a t => cases t <;> simp [build_sub_motions]

lemma build_sub_motions_head {kf : Keyframes} {e : Int} (a : Int) (t : List Int) :
    (build_sub_motions kf e (a :: t)).head?.map SubMotion.start = some a := by
  cases t <;> simp [build_sub_motions]

lemma build_sub_motions_last {kf : Keyframes} {e : Int} :
    ∀ l : List Int, l ≠ [] →
      (build_sub_motions kf e l).getLast?.map SubMotion.stop = some e := by
  intro l
  induction l with
  | nil => intro h; exact absurd rfl h
  | cons a t ih =>
    intro _
    cases t with
    | nil => simp [build_sub_motions]
    | cons b t2 =>
      have hne := @build_sub_motions_ne_nil kf e (b :: t2) (by simp)
      simp only [build_sub_motions]
      cases hb : build_sub_motions kf e (b :: t2) with
      | nil => exact absurd hb hne
      | cons x xs =>
        rw [List.getLast?_cons_cons, ← hb]
        exact ih (by simp)

lemma build_sub_motions_chain {kf : Keyframes} {e : Int} :
    ∀ l : List Int,
      List.Chain' (fun a b => b.start = a.stop + 1) (build_sub_motions kf e l) := by
  intro l
  induction l with
  | nil => simp [build_sub_motions]
  | cons a t ih =>
    cases t with
    | nil => simp [build_sub_motions]
    | cons b t2 =>
      simp only [build_sub_motions]
      apply List.chain'_cons'.mpr
      refine ⟨?_, ih⟩
      intro y hy
      have hh := @build_sub_motions_head kf e b t2
      cases hhd : (build_sub_motions kf e (b :: t2)).head? with
      | none => rw [hhd] at hy; cases hy
      | some z =>
        rw [hhd] at hy hh
        have hyz : z = y := by simpa using hy
        have hzb : z.start = b := by simpa using hh
        have hyb : y.start = b := by rw [← hyz]; exact hzb
        show y.start = b - 1 + 1
        omega

lemma build_sub_motions_bounds {kf : Keyframes} {e : Int} :
    ∀ l : List Int, l.Pairwise (· < ·) → (∀ x ∈ l, x ≤ e) →
      ∀ sm ∈ build_sub_motions kf e l, sm.start ≤ sm.stop := by
  intro l
  induction l with
  | nil =>
    intro _ _ sm hsm
    simp [build_sub_motions] at hsm
  | cons a t ih =>
    intro hpw hle sm hsm
    cases t with
    | nil =>
      simp only [build_sub_motions, List.mem_singleton] at hsm
      subst hsm
      simpa using hle a (by simp)
    | cons b t2 =>
      simp only [build_sub_motions, List.mem_cons] at hsm
      rcases hsm with rfl | h
      · have hab : a < b := (List.pairwise_cons.mp hpw).1 b (by simp)
        show a ≤ b - 1
        omega
      · exact ih (List.pairwise_cons.mp hpw).2
          (fun x hx => hle x (List.mem_cons_of_mem _ hx)) sm h

lemma chain_head_start_le {l : List SubMotion}
    (hch : List.Chain' (fun a b => b.start = a.stop + 1) l)
    (hbd : ∀ sm ∈ l, sm.start ≤ sm.stop) :
    ∀ x ∈ l.head?, ∀ sm ∈ l, x.start ≤ sm.start := by
  induction l with
  | nil =>
    intro x hx
    cases hx
  | cons a t ih =>
    intro x hx sm hsm
    have hxa : a = x := by simpa using hx
    rw [← hxa]
    rcases List.mem_cons.mp hsm with rfl | hsm2
    · exact le_refl _
    · cases t with
      | nil => cases hsm2
      | cons b t2 =>
        have hba : b.start = a.stop + 1 := (List.chain'_cons.mp hch).1
        have hbt := (List.chain'_cons.mp hch).2
        have hbd' : ∀ y ∈ b :: t2, y.start ≤ y.stop :=
          fun y hy => hbd y (List.mem_cons_of_mem _ hy)
        have hb_le : b.start ≤ sm.start := ih hbt hbd' b (by simp) sm hsm2
        have haa : a.start ≤ a.stop := hbd a (by simp)
        omega

lemma interval_partition :
    ∀ (l : List SubMotion) (s e : Int),
      l.head?.map SubMotion.start = some s →
      l.getLast?.map SubMotion.stop = some e →
      List.Chain' (fun a b => b.start = a.stop + 1) l →
      (∀ sm ∈ l, sm.start ≤ sm.stop) →
      ∀ j : Int, s ≤ j → j ≤ e →
        ∃! sm, sm ∈ l ∧ sm.start ≤ j ∧ j ≤ sm.stop := by
  intro l
  induction l with
  | nil =>
    intro s e hh
    simp at hh
  | cons a t ih =>
    intro s e hh hl hch hbd j hj1 hj2
    have hs : a.start = s := by simpa using hh
    cases t with
    | nil =>
      have he : a.stop = e := by simpa using hl
      refine ⟨a, ⟨by simp, by omega, by omega⟩, ?_⟩
      rintro y ⟨hy, _, _⟩
      simpa using hy
    | cons b t2 =>
      have hba : b.start = a.stop + 1 := (List.chain'_cons.mp hch).1
      have hcht := (List.chain'_cons.mp hch).2
      have hbd' : ∀ sm ∈ b :: t2, sm.start ≤ sm.stop :=
        fun sm hsm => hbd sm (List.mem_cons_of_mem _ hsm)
      have hlast : (b :: t2).getLast?.map SubMotion.stop = some e := by
        rw [List.getLast?_cons_cons] at hl
        exact hl
      by_cases hcase : j ≤ a.stop
      · refine ⟨a, ⟨by simp, by omega, hcase⟩, ?_⟩
        rintro y ⟨hy, hy1, hy2⟩
        rcases List.mem_cons.mp hy with rfl | hyt
        · rfl
        · exfalso
          have := chain_head_start_le hcht hbd' b (by simp) y hyt
          omega
      · obtain ⟨y, ⟨hy, hy1, hy2⟩, huniq⟩ :=
          ih b.start e (by simp) hlast hcht hbd' j (by omega) hj2
        refine ⟨y, ⟨List.mem_cons_of_mem _ hy, hy1, hy2⟩, ?_⟩
        rintro z ⟨hz, hz1, hz2⟩
        rcases List.mem_cons.mp hz with rfl | hzt
        · exact absurd hz2 hcase
        · exact huniq z ⟨hzt, hz1, hz2⟩

lemma pairwise_lt_of_sorted_nodup {l : List Int}
    (hs : l.Sorted (fun a b => a ≤ b)) (hn : l.Nodup) : l.Pairwise (· < ·) :=
  (List.Pairwise.and hs hn).imp (fun h => lt_of_le_of_ne h.1 h.2)

lemma lookup_eq_of_mem_nodup {kf : Keyframes} {k : Int} {v : KfData}
    (hnodup : (kf.map Prod.fst).Nodup) (hm : (k, v) ∈ kf) : kf.lookup k = some v := by
  induction kf with
  | nil => cases hm
  | cons p rest ih =>
    rw [List.map_cons, List.nodup_cons] at hnodup
    rcases List.mem_cons.mp hm with heq | hm2
    · subst heq
      simp [List.lookup]
    · have hkin : k ∈ rest.map Prod.fst := List.mem_map.mpr ⟨(k, v), hm2, rfl⟩
      have hne : (k == p.1) = false := by
        apply beq_eq_false_iff_ne.mpr
        intro he
        rw [he] at hkin
        exact hnodup.1 hkin
      obtain ⟨a, b⟩ := p
      simp only [List.lookup, hne]
      exact ih hnodup.2 hm2

lemma is_true_start_type_ne_nine {kf : Keyframes} {sk : List Int} {k : Int} {v : KfData}
    (h : is_true_start kf sk k v = true) : v.type ≠ some 9 := by
  unfold is_true_start at h
  simp only [Bool.or_eq_true, Bool.and_eq_true, decide_eq_true_eq] at h
  rcases h with (h1 | h2) | h3
  · rw [h1]; simp
  · exact h2.2
  · rw [h3.1]; simp

lemma sortKeys_nodup {l : List Int} (h : l.Nodup) : (sortKeys l).Nodup :=
  (List.perm_insertionSort (fun a b => a ≤ b) l).nodup_iff.mpr h

lemma main_segment_partition {kf : Keyframes} {F : Nat} {i : Int}
    (hnodup : (kf.map Prod.fst).Nodup)
    (hmain : main_segment kf F (sortKeys (kf.map Prod.fst)) i ≠ default_context) :
    ∃ s e,
      (main_segment kf F (sortKeys (kf.map Prod.fst)) i).start = some s ∧
      (main_segment kf F (sortKeys (kf.map Prod.fst)) i).stop = some e ∧
      s ≤ i ∧ i ≤ e ∧
      (main_segment kf F (sortKeys (kf.map Prod.fst)) i).sub_motions.head?.map
        SubMotion.start = some s ∧
      (main_segment kf F (sortKeys (kf.map Prod.fst)) i).sub_motions.getLast?.map
        SubMotion.stop = some e ∧
      List.Chain' (fun a b => b.start = a.stop + 1)
        (main_segment kf F (sortKeys (kf.map Prod.fst)) i).sub_motions ∧
      (∀ sm ∈ (main_segment kf F (sortKeys (kf.map Prod.fst)) i).sub_motions,
        sm.start ≤ sm.stop) := by
  revert hmain
  simp only [main_segment]
  split
  · intro h; exact absurd rfl h
  case isFalse hemp =>
    split
    · intro h; exact absurd rfl h
    case isFalse hip =>
      split
      case isFalse => intro h; exact absurd rfl h
      case isTrue hg =>
        intro _
        simp only [Bool.and_eq_true, decide_eq_true_eq] at hg
        set sk := sortKeys (kf.map Prod.fst) with hskdef
        set TS := true_start_keys kf sk with hTSdef
        set KT := TS.getD (bisect_right TS i - 1) 0 with hKTdef
        set em := scan_end kf F sk KT sk with hemdef
        have hsknodup : sk.Nodup := sortKeys_nodup hnodup
        have hlen : bisect_right TS i ≤ TS.length := List.countP_le_length _
        have hKTmem : KT ∈ TS := by
          rw [hKTdef]
          exact getD_mem_of_lt (by omega)
        have hKTmem2 : KT ∈ (kf.filter fun p => is_true_start kf sk p.1 p.2).map Prod.fst := by
          rw [hTSdef, true_start_keys] at hKTmem
          exact mem_sortKeys.mp hKTmem
        obtain ⟨pv, hpv, hpv1⟩ := List.mem_map.mp hKTmem2
        have hpvkf : pv ∈ kf := List.mem_of_mem_filter hpv
        have hpvtrue : is_true_start kf sk pv.1 pv.2 = true := by
          have := (List.mem_filter.mp hpv).2
          simpa using this
        have hlook : kfGet kf KT = pv.2 := by
          rw [← hpv1]
          unfold kfGet
          rw [lookup_eq_of_mem_nodup hnodup (by rw [Prod.mk.eta]; exact hpvkf)]
          rfl
        have htypne : (kfGet kf KT).type ≠ some 9 := by
          rw [hlook]
          exact is_true_start_type_ne_nine hpvtrue
        have hKTsk : KT ∈ sk :=
          mem_sortKeys.mpr (List.mem_map.mpr ⟨pv, hpvkf, hpv1⟩)
        set SMK := sk.filter (fun k => decide (KT ≤ k) && decide (k ≤ em.1) &&
          decide ((kfGet kf k).type ≠ some 9)) with hSMKdef
        have hKTin : KT ∈ SMK := by
          rw [hSMKdef]
          refine List.mem_filter.mpr ⟨hKTsk, ?_⟩
          simp only [Bool.and_eq_true, decide_eq_true_eq]
          exact ⟨⟨le_refl KT, by omega⟩, htypne⟩
        have hSMKsub : List.Sublist SMK sk := by rw [hSMKdef]; exact List.filter_sublist sk
        have hSMKsorted : SMK.Sorted (fun a b => a ≤ b) :=
          (sortKeys_sorted (kf.map Prod.fst)).sublist hSMKsub
        have hSMKnodup : SMK.Nodup := hsknodup.sublist hSMKsub
        have hminS : ∀ x ∈ SMK, KT ≤ x := by
          intro x hx
          rw [hSMKdef] at hx
          have := (List.mem_filter.mp hx).2
          simp only [Bool.and_eq_true, decide_eq_true_eq] at this
          exact this.1.1
        have hmaxS : ∀ x ∈ SMK, x ≤ em.1 := by
          intro x hx
          rw [hSMKdef] at hx
          have := (List.mem_filter.mp hx).2
          simp only [Bool.and_eq_true, decide_eq_true_eq] at this
          exact this.1.2
        have hheadS : SMK.head? = some KT := sorted_head?_eq_min hSMKsorted hKTin hminS
        have hSMKne : SMK ≠ [] := List.ne_nil_of_mem hKTin
        refine ⟨KT, em.1, rfl, rfl, hg.1, hg.2, ?_, ?_, ?_, ?_⟩
        · show (build_sub_motions kf em.1 SMK).head?.map SubMotion.start = some KT
          cases hsmk : SMK with
          | nil => exact absurd hsmk hSMKne
          | cons a t =>
            have ha : a = KT := by
              rw [hsmk] at hheadS
              simpa using hheadS
            rw [build_sub_motions_head]
            rw [ha]
        · exact build_sub_motions_last SMK hSMKne
        · exact build_sub_motions_chain SMK
        · exact build_sub_motions_bounds SMK
            (pairwise_lt_of_sorted_nodup hSMKsorted hSMKnodup) hmaxS

/-- C10: over any keyframe map with unique indices inside [0, frameCount)
and any frame index in range, a non-"none" context carries a non-empty
sub-motion list that exactly partitions the segment: the first sub-motion
starts at the segment start, each next one starts right after the previous
one's end, the last ends at the segment end, the queried frame lies in the
segment, and every frame of the segment belongs to exactly one sub-motion. -/
theorem C10_sub_motion_partition (kf : Keyframes) (F : Nat) (i : Int)
    (hnodup : (kf.map Prod.fst).Nodup)
    (hkeys : ∀ p ∈ kf, 0 ≤ p.1 ∧ p.1 < (F : Int))
    (h0 : 0 ≤ i) (_hiF : i < (F : Int))
    (hne : (get_keyframe_context_for_frame kf F i).mtype ≠ MType.mnone) :
    ∃ s e,
      (get_keyframe_context_for_frame kf F i).start = some s ∧
      (get_keyframe_context_for_frame kf F i).stop = some e ∧
      s ≤ i ∧ i ≤ e ∧
      (get_keyframe_context_for_frame kf F i).sub_motions ≠ [] ∧
      (get_keyframe_context_for_frame kf F i).sub_motions.head?.map
        SubMotion.start = some s ∧
      (get_keyframe_context_for_frame kf F i).sub_motions.getLast?.map
        SubMotion.stop = some e ∧
      List.Chain' (fun a b => b.start = a.stop + 1)
        (get_keyframe_context_for_frame kf F i).sub_motions ∧
      (∀ sm ∈ (get_keyframe_context_for_frame kf F i).sub_motions,
        sm.start ≤ sm.stop) ∧
      (∀ j : Int, s ≤ j → j ≤ e →
        ∃! sm, sm ∈ (get_keyframe_context_for_frame kf F i).sub_motions ∧
          sm.start ≤ j ∧ j ≤ sm.stop) := by
  revert hne
  unfold get_keyframe_context_for_frame
  split
  · intro hne; exact absurd rfl hne
  · simp only
    cases hse : simple_end_check kf (sortKeys (kf.map Prod.fst)) i with
    | some c =>
      intro _
      obtain ⟨fk, hhead, hifk, hc⟩ := simple_end_check_eq_some hse
      subst hc
      have hfk0 : 0 ≤ fk := by
        have hmem : fk ∈ sortKeys (kf.map Prod.fst) :=
          List.mem_of_mem_head? (by rw [hhead]; rfl)
        obtain ⟨p, hp, rfl⟩ := List.mem_map.mp (mem_sortKeys.mp hmem)
        exact (hkeys p hp).1
      refine ⟨0, fk, rfl, rfl, h0, hifk, by simp, by simp, by simp, by simp, ?_, ?_⟩
      · intro sm hsm
        have : sm = ⟨0, fk, kfGet kf fk⟩ := by simpa using hsm
        rw [this]
        exact hfk0
      · exact interval_partition _ 0 fk (by simp) (by simp) (by simp)
          (by intro sm hsm; have : sm = ⟨0, fk, kfGet kf fk⟩ := by simpa using hsm
              rw [this]; exact hfk0)
    | none =>
      intro hne
      have hmd : main_segment kf F (sortKeys (kf.map Prod.fst)) i ≠ default_context := by
        intro hc
        rw [hc] at hne
        exact hne rfl
      obtain ⟨s, e, h1, h2, h3, h4, h5, h6, h7, h8⟩ := main_segment_partition hnodup hmd
      refine ⟨s, e, h1, h2, h3, h4, ?_, h5, h6, h7, h8, ?_⟩
      · intro hc
        rw [hc] at h5
        simp at h5
      · exact interval_partition _ s e h5 h6 h7 h8

/-- C10 witness: the partition property instantiated on the example map at
frame 5. -/
theorem C10_sub_motion_partition_witness :
    ∃ s e,
      (get_keyframe_context_for_frame kfExample 10 5).start = some s ∧
      (get_keyframe_context_for_frame kfExample 10 5).stop = some e ∧
      s ≤ 5 ∧ (5 : Int) ≤ e ∧
      (get_keyframe_context_for_frame kfExample 10 5).sub_motions ≠ [] ∧
      (get_keyframe_context_for_frame kfExample 10 5).sub_motions.head?.map
        SubMotion.start = some s ∧
      (get_keyframe_context_for_frame kfExample 10 5).sub_motions.getLast?.map
        SubMotion.stop = some e ∧
      List.Chain' (fun a b => b.start = a.stop + 1)
        (get_keyframe_context_for_frame kfExample 10 5).sub_motions ∧
      (∀ sm ∈ (get_keyframe_context_for_frame kfExample 10 5).sub_motions,
        sm.start ≤ sm.stop) ∧
      (∀ j : Int, s ≤ j → j ≤ e →
        ∃! sm, sm ∈ (get_keyframe_context_for_frame kfExample 10 5).sub_motions ∧
          sm.start ≤ j ∧ j ≤ sm.stop) :=
  C10_sub_motion_partition kfExample 10 5 (by decide) (by decide) (by decide)
    (by decide) (by decide)
